import Mathlib

/-!
Shallow embedding of the `obsidian_graph` repository
(`src/obsidian_graph/obsidian_parser.py`, `src/obsidian_graph/graph_builder.py`,
`src/obsidian_graph/sdk_interface.py`).

The pipeline parses Obsidian markdown notes (YAML front matter + body +
`[[internal links]]`) and builds a directed graph: notes of type
`node`/`event` become vertices, notes of type `edge` become edges between
already-inserted vertices.

Modelling conventions:
* YAML values are the tagged union `YamlValue` (null / bool / num / str /
  list / map); a Python dict of metadata is an association list
  `Metadata` looked up by first key occurrence, like a dict with unique keys.
* File I/O is external: `parse_markdown_file` receives the result of
  reading the file as an `Option String` (`none` models an `IOError`
  caught by the `except` clause in the source).
* The YAML text parser is delegated (PyYAML in the source), so it is a
  function parameter `yamlParse`; parse failure is `.error`.
* Python exceptions that the code does not catch are modelled by
  `Except PyError`: calling `.upper()` on a non-string raises
  `AttributeError`, passing a non-string to `re.match` raises `TypeError`.
* String helpers (`upper`, `strip`, `split`, `replace`) are modelled over
  the character list of the string; they agree with Python on the ASCII
  fragment exercised here (Python's versions are Unicode-aware).
* `logging.info` / `logging.warning` calls are modelled as structured
  `LogEntry` values returned alongside results.
-/

/-- YAML scalar / collection values, as produced by a generic YAML parser. -/
inductive YamlValue where
  | null
  | bool (b : Bool)
  | num (n : Int)
  | str (s : String)
  | list (xs : List YamlValue)
  | map (kvs : List (String × YamlValue))

/-- A parsed YAML front-matter mapping (a Python dict of string keys). -/
abbrev Metadata := List (String × YamlValue)

/-- Python `d.get(k)`: the value stored under the first occurrence of `k`,
or `none` when the key is absent. -/
def dictGet (fm : Metadata) (k : String) : Option YamlValue :=
  List.lookup k fm

/-- Python `d.get(k, default)`. -/
def dictGetD (fm : Metadata) (k : String) (d : YamlValue) : YamlValue :=
  (dictGet fm k).getD d

/-- One entry of `_internal_links_info`:
`{"target_note_name": ..., "link_text": ...}`. -/
structure LinkInfo where
  target_note_name : String
  link_text : String

/-- The dictionary returned by `ObsidianParser.parse_markdown_file`
(called `ParsedNoteData` in the source's docstrings). -/
structure ParsedNoteData where
  file_path : String
  note_name : String
  yaml_front_matter : Metadata
  content : String
  _internal_links_info : List LinkInfo

/-- Uncaught Python exceptions reachable in `GraphBuilder`. -/
inductive PyError where
  | typeError
  | attributeError

/-- Structured rendering of the `logging` calls in the source. -/
inductive LogEntry where
  | infoNodeAdded (name : String)
  | infoEdgeAdded (src tgt rel : String)
  | warnUnknownType (t : Option YamlValue) (name : String)
  | warnMalformedEnds (name : String)
  | warnMissingSource (name src : String)
  | warnMissingTarget (name tgt : String)

/-! ### Python string helpers, over character lists -/

/-- `listStarts cs p`: does `cs` start with the pattern `p`? -/
def listStarts : List Char → List Char → Bool
  | _, [] => true
  | [], _ :: _ => false
  | c :: cs, d :: ds => c == d && listStarts cs ds

/-- Python `s.startswith(p)` (model of `str.startswith`). -/
def pyStarts (s p : String) : Bool :=
  listStarts s.data p.data

/-- Python `s.strip()`: remove leading and trailing whitespace. -/
def pyStrip (s : String) : String :=
  String.mk (((s.data.dropWhile Char.isWhitespace).reverse.dropWhile
    Char.isWhitespace).reverse)

/-- Python `s.upper()` (ASCII fragment of `str.upper`). -/
def pyUpper (s : String) : String :=
  String.mk (s.data.map Char.toUpper)

/-- Python `s.replace(' ', '_')`: single-character replacement. -/
def pyReplaceSpace (s : String) : String :=
  String.mk (s.data.map (fun c => if c == ' ' then '_' else c))

/-- Worker for Python `s.split(sep)` with non-empty `sep`: leftmost
non-overlapping occurrences. `fuel` bounds the recursion; it is spent one
character at a time, so `length + 1` is always enough. -/
def pySplitAux (sep : List Char) : Nat → List Char → List Char → List (List Char)
  | _, acc, [] => [acc.reverse]
  | 0, acc, rest => [acc.reverse ++ rest]
  | fuel + 1, acc, c :: cs =>
    if listStarts (c :: cs) sep then
      acc.reverse :: pySplitAux sep fuel [] (List.drop sep.length (c :: cs))
    else
      pySplitAux sep fuel (c :: acc) cs

/-- Python `s.split(sep)` (all splits). -/
def pySplit (sep s : String) : List String :=
  (pySplitAux sep.data (s.data.length + 1) [] s.data).map String.mk

/-- Python `sep.join(xs)`. -/
def pyJoin (sep : String) (xs : List String) : String :=
  String.mk (List.intercalate sep.data (xs.map String.data))

/-- Python `s.split(sep, 2)` (at most two splits), expressed through the
full split: the tail beyond the second piece is rejoined with `sep`. -/
def pySplit2 (sep s : String) : List String :=
  match pySplit sep s with
  | a :: b :: c :: rest => [a, b, pyJoin sep (c :: rest)]
  | parts => parts

/-! ### ObsidianParser -/

/-- Anchored match of the link regular expression
`\[\[([^|\]]+)(?:\|([^\]]+))?\]\]` at the head of a character list.
Returns (group 1, optional group 2, remainder after the match).
The character classes exclude exactly the characters that may follow
them, so the greedy regex semantics is forced and needs no backtracking. -/
def tryMatchLink : List Char → Option (List Char × Option (List Char) × List Char)
  | '[' :: '[' :: rest =>
    let s1 := rest.span (fun c => !(c == '|') && !(c == ']'))
    if s1.1.isEmpty then none else
    match s1.2 with
    | ']' :: ']' :: rest2 => some (s1.1, none, rest2)
    | '|' :: restp =>
      let s2 := restp.span (fun c => !(c == ']'))
      if s2.1.isEmpty then none else
      match s2.2 with
      | ']' :: ']' :: rest2 => some (s1.1, some s2.1, rest2)
      | _ => none
    | _ => none
  | _ => none

/-- Build one `_internal_links_info` entry from the two captured groups:
`target_note_name = match[0].strip()`,
`link_text = match[1].strip() if match[1] else target_note_name`. -/
def mkLinkInfo (g1 : List Char) (g2 : Option (List Char)) : LinkInfo :=
  let target := pyStrip (String.mk g1)
  { target_note_name := target
  , link_text :=
      match g2 with
      | some cs => pyStrip (String.mk cs)
      | none => target }

/-- `re.findall` scan: at each position try the anchored link match; on
success emit the groups and resume after the match, otherwise advance one
character. `fuel` bounds the recursion (each step consumes at least one
character, so the initial length is enough). -/
def scanLinksAux : Nat → List Char → List LinkInfo
  | 0, _ => []
  | _, [] => []
  | fuel + 1, c :: cs =>
    match tryMatchLink (c :: cs) with
    | some r => mkLinkInfo r.1 r.2.1 :: scanLinksAux fuel r.2.2
    | none => scanLinksAux fuel cs

/-- `ObsidianParser._parse_internal_links`. -/
def _parse_internal_links (text : String) : List LinkInfo :=
  scanLinksAux text.data.length text.data

/-- `ObsidianParser._extract_yaml_front_matter`. `yamlParse` stands for
`yaml.safe_load`; `.error` models a raised `yaml.YAMLError`. -/
def _extract_yaml_front_matter (yamlParse : String → Except String YamlValue)
    (content : String) : Metadata × String :=
  if pyStarts content "---" then
    let parts := pySplit2 "---" content
    if parts.length > 2 then
      let yaml_block := parts.getD 1 ""
      let body := pyStrip (parts.getD 2 "")
      match yamlParse yaml_block with
      | .ok (.map kvs) => (kvs, body)
      | .ok _ => ([], body)
      | .error _ => ([], body)
    else ([], content)
  else ([], content)

/-- `os.path.basename` for POSIX paths: the part after the last `/`. -/
def basename (p : String) : String :=
  (pySplit "/" p).getLastD ""

/-- First component of `os.path.splitext`: drop the extension after the
last dot, unless every character before that dot is itself a dot. -/
def splitextFst (p : String) : String :=
  let cs := p.data
  match (cs.reverse.findIdx? (fun c => c == '.')) with
  | none => p
  | some j =>
    let i := cs.length - 1 - j
    if (cs.take i).any (fun c => !(c == '.')) then String.mk (cs.take i) else p

/-- `os.path.splitext(os.path.basename(file_path))[0]`. -/
def noteNameOfPath (p : String) : String :=
  splitextFst (basename p)

/-- `ObsidianParser.parse_markdown_file`. `readResult` is the outcome of
`open(file_path).read()`: `none` models an `IOError` caught by the
`except` clause (the failure is only logged), `some full` the file text. -/
def parse_markdown_file (yamlParse : String → Except String YamlValue)
    (file_path : String) (readResult : Option String) : ParsedNoteData :=
  let parsed_data : ParsedNoteData :=
    { file_path := file_path
    , note_name := noteNameOfPath file_path
    , yaml_front_matter := []
    , content := ""
    , _internal_links_info := [] }
  match readResult with
  | none => parsed_data
  | some full_content =>
    let r := _extract_yaml_front_matter yamlParse full_content
    { parsed_data with
        yaml_front_matter := r.1
      , content := r.2
      , _internal_links_info := _parse_internal_links r.2 }

/-! ### GraphBuilder -/

/-- The attribute dictionary attached by `_add_node_to_graph`. -/
structure NodeAttrs where
  type : Option YamlValue
  aliases : YamlValue
  describe : Option YamlValue
  version : Option YamlValue
  over : Option YamlValue
  tags : YamlValue
  content : String
  _all_yaml_props : Metadata
  _internal_links_info : List LinkInfo

/-- A vertex's data in a `networkx.DiGraph`: `entity` for nodes inserted by
`add_node` with attributes, `bare` for nodes that `add_edge` would create
implicitly for a missing endpoint (empty attribute dict). -/
inductive NodeData where
  | bare
  | entity (a : NodeAttrs)

/-- The attribute dictionary attached by `_add_edge_to_graph`; `extra_props`
holds every remaining YAML key merged in by the final loop. -/
structure EdgeAttrs where
  relation_type : String
  defined_by_note_name : String
  original_content : String
  _all_yaml_props_from_edge_note : Metadata
  _internal_links_info : List LinkInfo
  version : Option YamlValue
  over : Option YamlValue
  tags : YamlValue
  extra_props : Metadata

/-- The keys already present in `edge_attributes` before the merge loop. -/
def reservedEdgeKeys : List String :=
  ["relation_type", "defined_by_note_name", "original_content",
   "_all_yaml_props_from_edge_note", "_internal_links_info",
   "version", "over", "tags"]

/-- The merge loop
`for key, value in edge_yaml_fm.items(): if key not in edge_attributes: ...`:
keys are added in iteration order, skipping reserved keys and keys
already added. -/
def mergeExtraProps (fm : Metadata) : Metadata :=
  fm.foldl
    (fun acc kv =>
      if reservedEdgeKeys.contains kv.1 || acc.any (fun p => p.1 == kv.1) then acc
      else acc ++ [kv])
    []

/-- A `networkx.DiGraph`: vertices with data, directed edges with
attributes, both in insertion order. -/
structure DiGraph where
  nodes : List (String × NodeData)
  edges : List (String × String × EdgeAttrs)

/-- `graph.has_node(n)`. -/
def DiGraph.hasNode (g : DiGraph) (n : String) : Bool :=
  g.nodes.any (fun p => p.1 == n)

/-- `graph.add_node(name, **attrs)`: updates the attributes of an existing
vertex (the full attribute dict is passed, so the update is a replacement),
otherwise appends a fresh vertex. -/
def DiGraph.addNode (g : DiGraph) (name : String) (a : NodeAttrs) : DiGraph :=
  if g.hasNode name then
    { g with nodes :=
        g.nodes.map (fun p => if p.1 == name then (name, NodeData.entity a) else p) }
  else
    { g with nodes := g.nodes ++ [(name, NodeData.entity a)] }

/-- `graph.add_edge(u, v, **attrs)`: networkx first creates any missing
endpoint as a bare vertex, then replaces the attributes of an existing
`(u, v)` edge or appends a fresh one. -/
def DiGraph.addEdge (g : DiGraph) (u v : String) (a : EdgeAttrs) : DiGraph :=
  let ns1 := if g.hasNode u then g.nodes else g.nodes ++ [(u, NodeData.bare)]
  let ns2 := if ns1.any (fun p => p.1 == v) then ns1 else ns1 ++ [(v, NodeData.bare)]
  let es :=
    if g.edges.any (fun e => e.1 == u && e.2.1 == v) then
      g.edges.map (fun e => if e.1 == u && e.2.1 == v then (u, v, a) else e)
    else
      g.edges ++ [(u, v, a)]
  { nodes := ns2, edges := es }

/-- The data of the vertex named `n`, if present. -/
def DiGraph.nodeData (g : DiGraph) (n : String) : Option NodeData :=
  List.lookup n g.nodes

/-- The attributes of the edge `(u, v)`, if present. -/
def DiGraph.edgeData (g : DiGraph) (u v : String) : Option EdgeAttrs :=
  (g.edges.find? (fun e => e.1 == u && e.2.1 == v)).map (fun e => e.2.2)

/-- `note_data["yaml_front_matter"].get("type")`. -/
def typeOf (d : ParsedNoteData) : Option YamlValue :=
  dictGet d.yaml_front_matter "type"

/-- `note_type in ["node", "event"]` (Python equality with a string). -/
def isEntityType : Option YamlValue → Bool
  | some (.str s) => s == "node" || s == "event"
  | _ => false

/-- `note_type == "edge"`. -/
def isEdgeType : Option YamlValue → Bool
  | some (.str s) => s == "edge"
  | _ => false

/-- The `node_attributes` dictionary of `_add_node_to_graph`. -/
def mkNodeAttrs (d : ParsedNoteData) : NodeAttrs :=
  { type := dictGet d.yaml_front_matter "type"
  , aliases := dictGetD d.yaml_front_matter "aliases" (.list [])
  , describe := dictGet d.yaml_front_matter "describe"
  , version := dictGet d.yaml_front_matter "version"
  , over := dictGet d.yaml_front_matter "over"
  , tags := dictGetD d.yaml_front_matter "tags" (.list [])
  , content := d.content
  , _all_yaml_props := d.yaml_front_matter
  , _internal_links_info := d._internal_links_info }

/-- `GraphBuilder._add_node_to_graph`, returning the mutated graph and the
`logging.info` entry. -/
def _add_node_to_graph (g : DiGraph) (d : ParsedNoteData) : DiGraph × LogEntry :=
  (g.addNode d.note_name (mkNodeAttrs d), LogEntry.infoNodeAdded d.note_name)

/-- `GraphBuilder._get_node_name_from_link`: `re.match` of
`\[\[([^|\]]+)(?:\|[^\]]+)?\]\]` against the string (anchored at the start,
trailing text permitted); on a match return `group(1).strip()`, otherwise
the original string. -/
def _get_node_name_from_link (link_str : String) : String :=
  match tryMatchLink link_str.data with
  | some r => pyStrip (String.mk r.1)
  | none => link_str

/-- `_get_node_name_from_link` applied to a YAML value: `re.match` raises
`TypeError` when its second argument is not a string. -/
def _get_node_name_from_link_val : YamlValue → Except PyError String
  | .str s => .ok (_get_node_name_from_link s)
  | _ => .error .typeError

/-- `edge_yaml_fm.get("describe", "UNKNOWN_RELATION").upper().replace(' ', '_')`:
a stored non-string value (e.g. YAML null) reaches `.upper()` and raises
`AttributeError`. -/
def deriveRelationType (fm : Metadata) : Except PyError String :=
  match dictGet fm "describe" with
  | none => .ok (pyReplaceSpace (pyUpper "UNKNOWN_RELATION"))
  | some (.str s) => .ok (pyReplaceSpace (pyUpper s))
  | some _ => .error .attributeError

/-- The `edge_attributes` dictionary, promoted fields plus the merge loop. -/
def mkEdgeAttrs (d : ParsedNoteData) (relation_type : String) : EdgeAttrs :=
  { relation_type := relation_type
  , defined_by_note_name := d.note_name
  , original_content := d.content
  , _all_yaml_props_from_edge_note := d.yaml_front_matter
  , _internal_links_info := d._internal_links_info
  , version := dictGet d.yaml_front_matter "version"
  , over := dictGet d.yaml_front_matter "over"
  , tags := dictGetD d.yaml_front_matter "tags" (.list [])
  , extra_props := mergeExtraProps d.yaml_front_matter }

/-- `GraphBuilder._add_edge_to_graph`: validate the shape of `ends`,
resolve both endpoints, check both exist as vertices, derive the relation
kind, then insert the edge. Warnings leave the graph unchanged; `.error`
models an uncaught exception. -/
def _add_edge_to_graph (g : DiGraph) (d : ParsedNoteData) :
    Except PyError (DiGraph × List LogEntry) :=
  match dictGet d.yaml_front_matter "ends" with
  | some (.list [e1, e2]) =>
    match _get_node_name_from_link_val e1 with
    | .error e => .error e
    | .ok source_node_name =>
      match _get_node_name_from_link_val e2 with
      | .error e => .error e
      | .ok target_node_name =>
        if !(g.hasNode source_node_name) then
          .ok (g, [LogEntry.warnMissingSource d.note_name source_node_name])
        else if !(g.hasNode target_node_name) then
          .ok (g, [LogEntry.warnMissingTarget d.note_name target_node_name])
        else
          match deriveRelationType d.yaml_front_matter with
          | .error e => .error e
          | .ok relation_type =>
            .ok (g.addEdge source_node_name target_node_name
                   (mkEdgeAttrs d relation_type),
                 [LogEntry.infoEdgeAdded source_node_name target_node_name
                    relation_type])
  | _ => .ok (g, [LogEntry.warnMalformedEnds d.note_name])

/-- Phase 1 of `build_graph`: add `node`/`event` documents as vertices,
queue `edge` documents, warn on any other type. Returns the graph, the
queued edge documents and the log, in iteration order. -/
def phase1 (g : DiGraph) :
    List ParsedNoteData → DiGraph × List ParsedNoteData × List LogEntry
  | [] => (g, [], [])
  | d :: ds =>
    if isEntityType (typeOf d) then
      let r0 := _add_node_to_graph g d
      let r := phase1 r0.1 ds
      (r.1, r.2.1, r0.2 :: r.2.2)
    else if isEdgeType (typeOf d) then
      let r := phase1 g ds
      (r.1, d :: r.2.1, r.2.2)
    else
      let r := phase1 g ds
      (r.1, r.2.1, LogEntry.warnUnknownType (typeOf d) d.note_name :: r.2.2)

/-- Phase 2 of `build_graph`: process each queued edge document in order;
an uncaught exception aborts the whole build. -/
def phase2 (g : DiGraph) :
    List ParsedNoteData → Except PyError (DiGraph × List LogEntry)
  | [] => .ok (g, [])
  | d :: ds =>
    match _add_edge_to_graph g d with
    | .error e => .error e
    | .ok r =>
      match phase2 r.1 ds with
      | .error e => .error e
      | .ok r2 => .ok (r2.1, r.2 ++ r2.2)

/-- `GraphBuilder.build_graph`: start from an empty `nx.DiGraph`, run the
node phase over all documents, then the edge phase over the queue. -/
def build_graph (parsed_notes_data : List ParsedNoteData) :
    Except PyError (DiGraph × List LogEntry) :=
  let r := phase1 { nodes := [], edges := [] } parsed_notes_data
  match phase2 r.1 r.2.1 with
  | .error e => .error e
  | .ok r2 => .ok (r2.1, r.2.2 ++ r2.2)

/-! ### Derived notions used in the statements -/

/-- The empty `nx.DiGraph()` that `build_graph` starts from. -/
def emptyDiGraph : DiGraph := { nodes := [], edges := [] }

/-- Referential integrity: every edge's endpoints are vertices of the graph. -/
def edgesOk (g : DiGraph) : Prop :=
  ∀ e ∈ g.edges, g.hasNode e.1 = true ∧ g.hasNode e.2.1 = true

/-- The vertex names of a graph are pairwise distinct. -/
def nodeKeysNodup (g : DiGraph) : Prop :=
  (g.nodes.map Prod.fst).Nodup

/-! ### Concrete documents used as evaluation inputs -/

/-- A `type: node` document named `A`. -/
def exDocA : ParsedNoteData :=
  { file_path := "/vault/A.md", note_name := "A"
  , yaml_front_matter := [("type", .str "node")]
  , content := "", _internal_links_info := [] }

/-- A `type: node` document named `B`. -/
def exDocB : ParsedNoteData :=
  { file_path := "/vault/B.md", note_name := "B"
  , yaml_front_matter := [("type", .str "node")]
  , content := "", _internal_links_info := [] }

/-- A well-formed edge document `A -> B` with `describe: relates to`. -/
def exDocAB : ParsedNoteData :=
  { file_path := "/vault/AB.md", note_name := "AB"
  , yaml_front_matter :=
      [("type", .str "edge"),
       ("ends", .list [.str "[[A]]", .str "B"]),
       ("describe", .str "relates to")]
  , content := "", _internal_links_info := [] }

/-- A document with an unknown `type: widget`. -/
def exDocBadType : ParsedNoteData :=
  { file_path := "/vault/X.md", note_name := "X"
  , yaml_front_matter := [("type", .str "widget")]
  , content := "", _internal_links_info := [] }

/-- An edge document whose `ends` is a plain string, not a list. -/
def exDocEndsString : ParsedNoteData :=
  { file_path := "/vault/S.md", note_name := "S"
  , yaml_front_matter := [("type", .str "edge"), ("ends", .str "A -> B")]
  , content := "", _internal_links_info := [] }

/-- An edge document between existing nodes whose `describe:` is YAML null. -/
def exDocNullDescribe : ParsedNoteData :=
  { file_path := "/vault/N.md", note_name := "N"
  , yaml_front_matter :=
      [("type", .str "edge"),
       ("ends", .list [.str "A", .str "B"]),
       ("describe", .null)]
  , content := "", _internal_links_info := [] }

/-- A second document also deriving the name `A` (a `type: event` note). -/
def exDocA2 : ParsedNoteData :=
  { file_path := "/vault/sub/A.md", note_name := "A"
  , yaml_front_matter := [("type", .str "event"), ("describe", .str "second")]
  , content := "second body", _internal_links_info := [] }

/-! ### Helper lemmas about the graph operations -/

theorem addNode_edges (g : DiGraph) (n : String) (a : NodeAttrs) :
    (g.addNode n a).edges = g.edges := by
  unfold DiGraph.addNode
  split <;> rfl

theorem hasNode_congr {g g' : DiGraph} (h : g'.nodes = g.nodes) (n : String) :
    g'.hasNode n = g.hasNode n := by
  unfold DiGraph.hasNode
  rw [h]

theorem addEdge_nodes_of_hasNode (g : DiGraph) (u v : String) (a : EdgeAttrs)
    (hu : g.hasNode u = true) (hv : g.hasNode v = true) :
    (g.addEdge u v a).nodes = g.nodes := by
  have hv' : g.nodes.any (fun p => p.1 == v) = true := hv
  simp only [DiGraph.addEdge, hu, if_true, hv']

theorem addEdge_mem_edges (g : DiGraph) (u v : String) (a : EdgeAttrs)
    (e : String × String × EdgeAttrs) (he : e ∈ (g.addEdge u v a).edges) :
    e ∈ g.edges ∨ e = (u, v, a) := by
  simp only [DiGraph.addEdge] at he
  split at he
  · rcases List.mem_map.1 he with ⟨e0, he0, heq⟩
    by_cases hc : (e0.1 == u && e0.2.1 == v) = true
    · right; rw [if_pos hc] at heq; exact heq.symm
    · left; rw [if_neg hc] at heq; exact heq ▸ he0
  · rcases List.mem_append.1 he with h | h
    · left; exact h
    · right; simpa using h

theorem add_edge_step (g : DiGraph) (d : ParsedNoteData) :
    (∃ w, _add_edge_to_graph g d = .ok (g, [w]))
    ∨ (∃ s t rel, _add_edge_to_graph g d =
          .ok (g.addEdge s t (mkEdgeAttrs d rel), [LogEntry.infoEdgeAdded s t rel])
        ∧ g.hasNode s = true ∧ g.hasNode t = true)
    ∨ (∃ e, _add_edge_to_graph g d = .error e) := by
  unfold _add_edge_to_graph
  split
  · split
    · right; right; exact ⟨_, rfl⟩
    · split
      · right; right; exact ⟨_, rfl⟩
      · split
        · left; exact ⟨_, rfl⟩
        · split
          · left; exact ⟨_, rfl⟩
          · split
            · right; right; exact ⟨_, rfl⟩
            · right; left
              refine ⟨_, _, _, rfl, ?_, ?_⟩ <;> simp_all
  · left; exact ⟨_, rfl⟩

theorem add_edge_step_nodes (g : DiGraph) (d : ParsedNoteData)
    (r : DiGraph × List LogEntry) (h : _add_edge_to_graph g d = .ok r) :
    r.1.nodes = g.nodes := by
  rcases add_edge_step g d with ⟨w, hw⟩ | ⟨s, t, rel, heq, hs, ht⟩ | ⟨e, he⟩
  · rw [hw] at h; injection h with h'; rw [← h']
  · rw [heq] at h; injection h with h'; rw [← h']
    exact addEdge_nodes_of_hasNode _ _ _ _ hs ht
  · rw [he] at h; exact Except.noConfusion h

theorem add_edge_step_mem (g : DiGraph) (d : ParsedNoteData)
    (r : DiGraph × List LogEntry) (h : _add_edge_to_graph g d = .ok r)
    (e : String × String × EdgeAttrs) (he : e ∈ r.1.edges) :
    e ∈ g.edges ∨ (g.hasNode e.1 = true ∧ g.hasNode e.2.1 = true) := by
  rcases add_edge_step g d with ⟨w, hw⟩ | ⟨s, t, rel, heq, hs, ht⟩ | ⟨er, hr⟩
  · rw [hw] at h; injection h with h'; rw [← h'] at he; left; exact he
  · rw [heq] at h; injection h with h'; rw [← h'] at he
    rcases addEdge_mem_edges _ _ _ _ _ he with h1 | h1
    · left; exact h1
    · right; rw [h1]; exact ⟨hs, ht⟩
  · rw [hr] at h; exact Except.noConfusion h

theorem phase1_edges (ds : List ParsedNoteData) :
    ∀ g : DiGraph, ((phase1 g ds).1).edges = g.edges := by
  induction ds with
  | nil => intro g; rfl
  | cons d ds ih =>
    intro g
    by_cases h1 : isEntityType (typeOf d) = true
    · simp [phase1, h1, _add_node_to_graph, ih, addNode_edges]
    · by_cases h2 : isEdgeType (typeOf d) = true
      · simp [phase1, h1, h2, ih]
      · simp [phase1, h1, h2, ih]

theorem phase2_nodes (ds : List ParsedNoteData) :
    ∀ g r, phase2 g ds = .ok r → r.1.nodes = g.nodes := by
  induction ds with
  | nil =>
    intro g r h
    injection h with h'
    rw [← h']
  | cons d ds ih =>
    intro g r h
    unfold phase2 at h
    cases h1 : _add_edge_to_graph g d with
    | error e => rw [h1] at h; exact Except.noConfusion h
    | ok r1 =>
      rw [h1] at h
      dsimp only at h
      cases h2 : phase2 r1.1 ds with
      | error e => rw [h2] at h; exact Except.noConfusion h
      | ok r2 =>
        rw [h2] at h
        dsimp only at h
        injection h with h'
        rw [← h']
        calc r2.1.nodes = r1.1.nodes := ih r1.1 r2 h2
          _ = g.nodes := add_edge_step_nodes g d r1 h1

theorem phase2_edgesOk (ds : List ParsedNoteData) :
    ∀ g r, phase2 g ds = .ok r → edgesOk g → edgesOk r.1 := by
  induction ds with
  | nil =>
    intro g r h hg
    injection h with h'
    rw [← h']; exact hg
  | cons d ds ih =>
    intro g r h hg
    unfold phase2 at h
    cases h1 : _add_edge_to_graph g d with
    | error e => rw [h1] at h; exact Except.noConfusion h
    | ok r1 =>
      rw [h1] at h
      dsimp only at h
      cases h2 : phase2 r1.1 ds with
      | error e => rw [h2] at h; exact Except.noConfusion h
      | ok r2 =>
        rw [h2] at h
        dsimp only at h
        injection h with h'
        rw [← h']
        have hn1 : r1.1.nodes = g.nodes := add_edge_step_nodes g d r1 h1
        refine ih r1.1 r2 h2 ?_
        intro e he
        rcases add_edge_step_mem g d r1 h1 e he with h3 | h3
        · rw [hasNode_congr hn1, hasNode_congr hn1]
          exact hg e h3
        · rw [hasNode_congr hn1, hasNode_congr hn1]
          exact h3

theorem mem_addNode (g : DiGraph) (m : String) (a : NodeAttrs)
    (n : String) (data : NodeData) (h : (n, data) ∈ (g.addNode m a).nodes) :
    (n, data) ∈ g.nodes ∨ (n = m ∧ data = NodeData.entity a) := by
  unfold DiGraph.addNode at h
  split at h
  · rcases List.mem_map.1 h with ⟨p, hp, hpe⟩
    by_cases hc : (p.1 == m) = true
    · right
      rw [if_pos hc] at hpe
      exact ⟨(Prod.mk.injEq .. ▸ hpe.symm).1, (Prod.mk.injEq .. ▸ hpe.symm).2⟩
    · left
      rw [if_neg hc] at hpe
      exact hpe ▸ hp
  · rcases List.mem_append.1 h with h1 | h1
    · left; exact h1
    · right; simpa [Prod.ext_iff] using h1

theorem phase1_mem_nodes (ds : List ParsedNoteData) :
    ∀ g n data, (n, data) ∈ (phase1 g ds).1.nodes →
      (n, data) ∈ g.nodes ∨
        ∃ d, d ∈ ds ∧ d.note_name = n ∧ isEntityType (typeOf d) = true ∧
          data = NodeData.entity (mkNodeAttrs d) := by
  induction ds with
  | nil => intro g n data h; left; exact h
  | cons d ds ih =>
    intro g n data h
    by_cases h1 : isEntityType (typeOf d) = true
    · simp only [phase1, h1, if_true, _add_node_to_graph] at h
      rcases ih _ n data h with h' | ⟨d', hd', hn, ht, hdata⟩
      · rcases mem_addNode _ _ _ _ _ h' with h'' | ⟨rfl, rfl⟩
        · left; exact h''
        · right; exact ⟨d, List.mem_cons_self d ds, rfl, h1, rfl⟩
      · right; exact ⟨d', List.mem_cons_of_mem d hd', hn, ht, hdata⟩
    · by_cases h2 : isEdgeType (typeOf d) = true
      · simp only [phase1, h1, h2, if_true, if_false, Bool.false_eq_true] at h
        rcases ih _ n data h with h' | ⟨d', hd', hn, ht, hdata⟩
        · left; exact h'
        · right; exact ⟨d', List.mem_cons_of_mem d hd', hn, ht, hdata⟩
      · simp only [phase1, h1, h2, if_true, if_false, Bool.false_eq_true] at h
        rcases ih _ n data h with h' | ⟨d', hd', hn, ht, hdata⟩
        · left; exact h'
        · right; exact ⟨d', List.mem_cons_of_mem d hd', hn, ht, hdata⟩

theorem phase1_append (xs ys : List ParsedNoteData) :
    ∀ g, phase1 g (xs ++ ys) =
      ((phase1 (phase1 g xs).1 ys).1,
       (phase1 g xs).2.1 ++ (phase1 (phase1 g xs).1 ys).2.1,
       (phase1 g xs).2.2 ++ (phase1 (phase1 g xs).1 ys).2.2) := by
  induction xs with
  | nil => intro g; rfl
  | cons d xs ih =>
    intro g
    by_cases h1 : isEntityType (typeOf d) = true
    · simp [phase1, h1, _add_node_to_graph, ih]
    · by_cases h2 : isEdgeType (typeOf d) = true
      · simp [phase1, h1, h2, ih]
      · simp [phase1, h1, h2, ih]

theorem lookup_map_replace (l : List (String × NodeData)) (n : String) (v : NodeData) :
    List.lookup n (l.map (fun p => if p.1 == n then (n, v) else p)) =
      if l.any (fun p => p.1 == n) then some v else none := by
  induction l with
  | nil => rfl
  | cons p l ih =>
    obtain ⟨pk, pv⟩ := p
    by_cases hc : pk = n
    · simp [hc, List.lookup_cons_self]
    · have hb : (pk == n) = false := by simp [hc]
      have hb2 : (n == pk) = false := by simp [Ne.symm hc]
      simp [hc, List.lookup_cons, hb, hb2]
      rw [hb]
      simpa [Bool.false_or] using ih

theorem lookup_map_replace_other (l : List (String × NodeData)) (n : String)
    (v : NodeData) (m : String) (hm : m ≠ n) :
    List.lookup m (l.map (fun p => if p.1 == n then (n, v) else p)) =
      List.lookup m l := by
  induction l with
  | nil => rfl
  | cons p l ih =>
    obtain ⟨pk, pv⟩ := p
    by_cases hc : pk = n
    · have hb2 : (m == n) = false := by simp [hm]
      have hb3 : (m == pk) = false := by simp [hc, hm]
      simp [hc, List.lookup_cons, hb2, hb3]
      simpa using ih
    · simp [hc, List.lookup_cons]
      cases hmk : m == pk with
      | false => simpa using ih
      | true => rfl

theorem addNode_nodeData_self (g : DiGraph) (n : String) (a : NodeAttrs) :
    (g.addNode n a).nodeData n = some (NodeData.entity a) := by
  unfold DiGraph.addNode DiGraph.nodeData
  by_cases h : g.hasNode n = true
  · rw [if_pos h, lookup_map_replace]
    have h' : g.nodes.any (fun p => p.1 == n) = true := h
    rw [if_pos h']
  · rw [if_neg h, List.lookup_append]
    have h'' : g.nodes.any (fun p => p.1 == n) = false := by
      rw [← Bool.not_eq_true]; exact h
    have hnone : List.lookup n g.nodes = none := by
      rw [List.lookup_eq_none_iff]
      intro p hp
      have hp2 := List.any_eq_false.1 h'' p hp
      simp at hp2 ⊢
      exact fun he => hp2 he.symm
    simp [hnone, List.lookup_cons_self]

theorem addNode_nodeData_other (g : DiGraph) (n : String) (a : NodeAttrs)
    (m : String) (hm : m ≠ n) :
    (g.addNode n a).nodeData m = g.nodeData m := by
  unfold DiGraph.addNode DiGraph.nodeData
  by_cases h : g.hasNode n = true
  · rw [if_pos h]
    exact lookup_map_replace_other g.nodes n (NodeData.entity a) m hm
  · rw [if_neg h, List.lookup_append]
    have hb : (m == n) = false := by simp [hm]
    simp [List.lookup_cons, hb]

theorem phase1_nodeData_preserve (ds : List ParsedNoteData) (n : String) :
    ∀ g, (∀ d ∈ ds, isEntityType (typeOf d) = true → d.note_name ≠ n) →
      (phase1 g ds).1.nodeData n = g.nodeData n := by
  induction ds with
  | nil => intro g _; rfl
  | cons d ds ih =>
    intro g hds
    have hds' : ∀ d' ∈ ds, isEntityType (typeOf d') = true → d'.note_name ≠ n :=
      fun d' hd' => hds d' (List.mem_cons_of_mem d hd')
    by_cases h1 : isEntityType (typeOf d) = true
    · have hne : d.note_name ≠ n := hds d (List.mem_cons_self d ds) h1
      simp only [phase1, h1, if_true, _add_node_to_graph]
      rw [ih _ hds']
      exact addNode_nodeData_other g d.note_name (mkNodeAttrs d) n (Ne.symm hne)
    · by_cases h2 : isEdgeType (typeOf d) = true
      · simp only [phase1, h1, h2, if_true, if_false, Bool.false_eq_true]
        exact ih _ hds'
      · simp only [phase1, h1, h2, if_true, if_false, Bool.false_eq_true]
        exact ih _ hds'

theorem addNode_keys (g : DiGraph) (n : String) (a : NodeAttrs) :
    (g.addNode n a).nodes.map Prod.fst =
      if g.hasNode n then g.nodes.map Prod.fst else g.nodes.map Prod.fst ++ [n] := by
  unfold DiGraph.addNode
  by_cases h : g.hasNode n = true
  · rw [if_pos h, if_pos h, List.map_map]
    apply List.map_congr_left
    intro p _
    by_cases hc : p.1 = n
    · simp [hc]
    · simp [hc]
  · rw [if_neg h, if_neg h]
    simp

theorem addNode_keysNodup (g : DiGraph) (n : String) (a : NodeAttrs)
    (h : nodeKeysNodup g) : nodeKeysNodup (g.addNode n a) := by
  unfold nodeKeysNodup at h ⊢
  rw [addNode_keys]
  by_cases hc : g.hasNode n = true
  · rw [if_pos hc]; exact h
  · rw [if_neg hc]
    have hnotin : n ∉ g.nodes.map Prod.fst := by
      intro hmem
      rcases List.mem_map.1 hmem with ⟨p, hp, hpe⟩
      have : g.nodes.any (fun p => p.1 == n) = true :=
        List.any_eq_true.2 ⟨p, hp, by simp [hpe]⟩
      exact hc this
    simp [List.nodup_append, h, hnotin]

theorem phase1_keysNodup (ds : List ParsedNoteData) :
    ∀ g, nodeKeysNodup g → nodeKeysNodup (phase1 g ds).1 := by
  induction ds with
  | nil => intro g h; exact h
  | cons d ds ih =>
    intro g h
    by_cases h1 : isEntityType (typeOf d) = true
    · simp only [phase1, h1, if_true, _add_node_to_graph]
      exact ih _ (addNode_keysNodup _ _ _ h)
    · by_cases h2 : isEdgeType (typeOf d) = true
      · simp only [phase1, h1, h2, if_true, if_false, Bool.false_eq_true]
        exact ih _ h
      · simp only [phase1, h1, h2, if_true, if_false, Bool.false_eq_true]
        exact ih _ h

theorem filter_key_length_one (l : List (String × NodeData)) (n : String) (v : NodeData)
    (hnd : (l.map Prod.fst).Nodup) (hl : List.lookup n l = some v) :
    (l.filter (fun p => p.1 == n)).length = 1 := by
  induction l with
  | nil => exact Option.noConfusion hl
  | cons p l ih =>
    obtain ⟨pk, pv⟩ := p
    rw [List.lookup_cons] at hl
    rw [List.map_cons] at hnd
    have hnd1 := (List.nodup_cons.1 hnd).1
    have hnd2 := (List.nodup_cons.1 hnd).2
    by_cases hc : n = pk
    · subst hc
      have hfe : l.filter (fun p => p.1 == n) = [] := by
        rw [List.filter_eq_nil_iff]
        intro p hp hpe
        exact hnd1 (List.mem_map.2 ⟨p, hp, by simpa using hpe⟩)
      simp [List.filter_cons, hfe]
    · have hb : (n == pk) = false := by simp [hc]
      rw [hb] at hl
      dsimp only at hl
      have hb2 : (pk == n) = false := by simp [Ne.symm hc]
      simp only [List.filter_cons, hb2, if_false, Bool.false_eq_true]
      exact ih hnd2 hl

theorem find_map_replace (l : List (String × String × EdgeAttrs)) (u v : String)
    (a : EdgeAttrs) :
    (l.map (fun e => if e.1 == u && e.2.1 == v then (u, v, a) else e)).find?
        (fun e => e.1 == u && e.2.1 == v) =
      if l.any (fun e => e.1 == u && e.2.1 == v) then some (u, v, a) else none := by
  induction l with
  | nil => rfl
  | cons e l ih =>
    by_cases hc : (e.1 == u && e.2.1 == v) = true
    · rw [List.map_cons, if_pos hc, List.find?_cons_of_pos _ (by simp), List.any_cons, hc]
      simp
    · have hb : (e.1 == u && e.2.1 == v) = false := by simpa using hc
      rw [List.map_cons, if_neg hc]
      simp only [List.find?, List.any_cons, hb, Bool.false_or]
      exact ih

theorem edgeData_addEdge (g : DiGraph) (u v : String) (a : EdgeAttrs) :
    (g.addEdge u v a).edgeData u v = some a := by
  unfold DiGraph.addEdge DiGraph.edgeData
  dsimp only
  by_cases hc : g.edges.any (fun e => e.1 == u && e.2.1 == v) = true
  · rw [if_pos hc, find_map_replace, if_pos hc]
    rfl
  · rw [if_neg hc, List.find?_append]
    have hnone : g.edges.find? (fun e => e.1 == u && e.2.1 == v) = none := by
      rw [List.find?_eq_none]
      intro x hx
      have hx2 := List.any_eq_false.1 (by rw [← Bool.not_eq_true]; exact hc) x hx
      simpa using hx2
    rw [hnone]
    simp

/-! ### Claim theorems -/

/-- C2: `ObsidianParser.parse_markdown_file` never raises (it is a total
function of the read outcome); when the file cannot be read (`readResult =
none`, the caught-and-logged `IOError` case) it returns a parsed document
with empty metadata mapping, empty body, empty references, and a name
derived from the path by `os.path.splitext(os.path.basename(path))[0]`. -/
theorem C2_parse_unreadable_defaults (yamlParse : String → Except String YamlValue)
    (file_path : String) :
    parse_markdown_file yamlParse file_path none =
      { file_path := file_path
      , note_name := noteNameOfPath file_path
      , yaml_front_matter := []
      , content := ""
      , _internal_links_info := [] } := rfl

/-- C4: link parsing and endpoint resolution round-trip: `"[[Foo|Bar]]"`
resolves to target `"Foo"` with recorded display text `"Bar"`, `"[[Foo]]"`
resolves to `"Foo"` with display `"Foo"`, and every string that does not
match the double-bracket link pattern is returned unchanged by
`_get_node_name_from_link`. -/
theorem C4_link_roundtrip :
    (_get_node_name_from_link "[[Foo|Bar]]" = "Foo"
      ∧ _parse_internal_links "[[Foo|Bar]]" =
          [{ target_note_name := "Foo", link_text := "Bar" }])
    ∧ (_get_node_name_from_link "[[Foo]]" = "Foo"
      ∧ _parse_internal_links "[[Foo]]" =
          [{ target_note_name := "Foo", link_text := "Foo" }])
    ∧ (∀ s : String, tryMatchLink s.data = none → _get_node_name_from_link s = s) := by
  refine ⟨⟨?_, ?_⟩, ⟨?_, ?_⟩, ?_⟩
  · rfl
  · rfl
  · rfl
  · rfl
  · intro s h
    unfold _get_node_name_from_link
    rw [h]

/-- Witness for C4: the bare string `"Concept A"` is not in link syntax and
is returned unchanged. -/
theorem C4_witness :
    _get_node_name_from_link "Concept A" = "Concept A" :=
  C4_link_roundtrip.2.2 "Concept A" rfl

/-- C5: an edge document whose `ends` is not a two-element list (absent,
non-list such as a plain string, or wrong length) produces no edge: the
graph is returned unchanged with exactly one warning citing the malformed
`ends`. -/
theorem C5_malformed_ends_rejected (g : DiGraph) (d : ParsedNoteData)
    (h : ∀ xs, dictGet d.yaml_front_matter "ends" = some (YamlValue.list xs) →
      xs.length ≠ 2) :
    _add_edge_to_graph g d = .ok (g, [LogEntry.warnMalformedEnds d.note_name]) := by
  unfold _add_edge_to_graph
  split
  · rename_i e1 e2 heq
    exact absurd rfl (h [e1, e2] heq)
  · rfl

/-- Witness for C5: the concrete edge document whose `ends` is the plain
string `"A -> B"` is rejected with one malformed-`ends` warning. -/
theorem C5_witness :
    _add_edge_to_graph emptyDiGraph exDocEndsString =
      .ok (emptyDiGraph, [LogEntry.warnMalformedEnds "S"]) :=
  C5_malformed_ends_rejected emptyDiGraph exDocEndsString
    (fun xs hxs => by
      rw [show dictGet exDocEndsString.yaml_front_matter "ends" =
            some (YamlValue.str "A -> B") from rfl] at hxs
      injection hxs with h2
      exact YamlValue.noConfusion h2)

/-- C7: a document that begins with the `---` delimiter but has no second
occurrence of it yields empty metadata and a body equal to the original
full text, untrimmed. -/
theorem C7_single_delimiter_full_body (yamlParse : String → Except String YamlValue)
    (content : String)
    (h1 : pyStarts content "---" = true)
    (h2 : (pySplit "---" content).length ≤ 2) :
    _extract_yaml_front_matter yamlParse content = ([], content) := by
  unfold _extract_yaml_front_matter
  rw [if_pos h1]
  have hp : (pySplit2 "---" content).length ≤ 2 := by
    unfold pySplit2
    rcases hs : pySplit "---" content with _ | ⟨a, _ | ⟨b, _ | ⟨c, rest⟩⟩⟩
    · simp [hs]
    · simp [hs]
    · simp [hs]
    · rw [hs] at h2
      simp only [List.length_cons] at h2
      omega
  rw [if_neg (Nat.not_lt.mpr hp)]

/-- Witness for C7: a concrete document with an unterminated front-matter
block keeps its whole text as body. -/
theorem C7_witness :
    _extract_yaml_front_matter (fun _ => .error "") "---\ntype: node" =
      ([], "---\ntype: node") :=
  C7_single_delimiter_full_body _ _ (by decide) (by decide)

/-- C10: `build_graph` is not total over well-shaped edge documents: an edge
document whose `ends` resolve to two existing nodes but whose `describe:` is
YAML null makes relation-kind derivation call `.upper()` on a non-string,
raising `AttributeError`, which aborts the build. -/
theorem C10_null_describe_raises :
    build_graph [exDocA, exDocB, exDocNullDescribe] =
      .error PyError.attributeError := rfl

/-- C3: relation-kind derivation is a pure function of the edge document's
metadata: when both endpoints resolve to existing nodes, the stored
`relation_type` equals the `describe` string uppercased with every space
character replaced by an underscore (and nothing else), and equals the
literal `"UNKNOWN_RELATION"` when `describe` is absent; in particular
`"relates to"` normalizes to `"RELATES_TO"`. -/
theorem C3_relation_kind (g : DiGraph) (d : ParsedNoteData) (s t : String)
    (hends : dictGet d.yaml_front_matter "ends" =
      some (YamlValue.list [YamlValue.str s, YamlValue.str t]))
    (hs : g.hasNode (_get_node_name_from_link s) = true)
    (ht : g.hasNode (_get_node_name_from_link t) = true) :
    (∀ sd, dictGet d.yaml_front_matter "describe" = some (YamlValue.str sd) →
      ∃ g' L a, _add_edge_to_graph g d = .ok (g', L)
        ∧ g'.edgeData (_get_node_name_from_link s) (_get_node_name_from_link t) = some a
        ∧ a.relation_type = pyReplaceSpace (pyUpper sd))
    ∧ (dictGet d.yaml_front_matter "describe" = none →
      ∃ g' L a, _add_edge_to_graph g d = .ok (g', L)
        ∧ g'.edgeData (_get_node_name_from_link s) (_get_node_name_from_link t) = some a
        ∧ a.relation_type = "UNKNOWN_RELATION")
    ∧ pyReplaceSpace (pyUpper "relates to") = "RELATES_TO" := by
  have hmain : ∀ rel, deriveRelationType d.yaml_front_matter = .ok rel →
      ∃ g' L a, _add_edge_to_graph g d = .ok (g', L)
        ∧ g'.edgeData (_get_node_name_from_link s) (_get_node_name_from_link t) = some a
        ∧ a.relation_type = rel := by
    intro rel hrel
    refine ⟨g.addEdge (_get_node_name_from_link s) (_get_node_name_from_link t)
      (mkEdgeAttrs d rel),
      [LogEntry.infoEdgeAdded (_get_node_name_from_link s)
        (_get_node_name_from_link t) rel],
      mkEdgeAttrs d rel, ?_, edgeData_addEdge _ _ _ _, rfl⟩
    unfold _add_edge_to_graph
    rw [hends]
    dsimp only [_get_node_name_from_link_val]
    simp only [hs, ht, Bool.not_true, Bool.false_eq_true, if_false, hrel]
  refine ⟨?_, ?_, rfl⟩
  · intro sd hsd
    apply hmain
    unfold deriveRelationType
    rw [hsd]
  · intro habs
    apply hmain
    unfold deriveRelationType
    rw [habs]
    rfl

/-- Witness for C3: with nodes `A` and `B` present, the edge document
`exDocAB` (`describe: "relates to"`) stores relation kind `"RELATES_TO"`. -/
theorem C3_witness :
    ∃ g' L a,
      _add_edge_to_graph
          { nodes := [("A", NodeData.bare), ("B", NodeData.bare)], edges := [] }
          exDocAB = .ok (g', L)
        ∧ g'.edgeData (_get_node_name_from_link "[[A]]")
            (_get_node_name_from_link "B") = some a
        ∧ a.relation_type = pyReplaceSpace (pyUpper "relates to") :=
  (C3_relation_kind
    { nodes := [("A", NodeData.bare), ("B", NodeData.bare)], edges := [] }
    exDocAB "[[A]]" "B" rfl rfl rfl).1 "relates to" rfl

/-- C9: graph construction is deterministic and idempotent: `build_graph`
is a pure function of the parsed-document sequence, so two invocations on
the same sequence return graphs with identical node sets, edge sets and
attribute values, and identical logs. -/
theorem C9_build_deterministic (notes1 notes2 : List ParsedNoteData)
    (h : notes1 = notes2)
    (G1 G2 : DiGraph) (L1 L2 : List LogEntry)
    (h1 : build_graph notes1 = .ok (G1, L1))
    (h2 : build_graph notes2 = .ok (G2, L2)) :
    G1.nodes = G2.nodes ∧ G1.edges = G2.edges ∧ L1 = L2 := by
  subst h
  rw [h1] at h2
  injection h2 with h3
  have h4 : G1 = G2 := congrArg Prod.fst h3
  have h5 : L1 = L2 := congrArg Prod.snd h3
  exact ⟨by rw [h4], by rw [h4], h5⟩

/-- Witness for C9: two runs of `build_graph` on the one-document vault
`[exDocA]` agree. -/
theorem C9_witness :
    ∃ G L, build_graph [exDocA] = .ok (G, L)
      ∧ (G.nodes = G.nodes ∧ G.edges = G.edges ∧ L = L) := by
  refine ⟨_, _, rfl, ?_⟩
  exact C9_build_deterministic [exDocA] [exDocA] rfl _ _ _ _ rfl rfl

/-- C1: referential integrity. In any successful build: every edge's two
endpoints are vertices of the returned graph; the vertex set is exactly the
one produced by the node phase (inserting edges never creates a vertex);
every vertex was inserted from a document whose metadata `type` is `node`
or `event`; and an edge document whose resolved source or target is not
already a vertex leaves the graph unchanged and produces only a warning,
whatever the state of the graph when it is processed. -/
theorem C1_edge_referential_integrity (notes : List ParsedNoteData)
    (G : DiGraph) (L : List LogEntry)
    (h : build_graph notes = .ok (G, L)) :
    edgesOk G
    ∧ G.nodes = (phase1 emptyDiGraph notes).1.nodes
    ∧ (∀ n data, (n, data) ∈ G.nodes →
        ∃ d, d ∈ notes ∧ d.note_name = n ∧ isEntityType (typeOf d) = true ∧
          data = NodeData.entity (mkNodeAttrs d))
    ∧ (∀ (g : DiGraph) (d : ParsedNoteData) (s t : String),
        dictGet d.yaml_front_matter "ends" =
          some (YamlValue.list [YamlValue.str s, YamlValue.str t]) →
        (g.hasNode (_get_node_name_from_link s) = false
          ∨ g.hasNode (_get_node_name_from_link t) = false) →
        ∃ w, _add_edge_to_graph g d = .ok (g, [w])) := by
  unfold build_graph at h
  dsimp only at h
  cases hp : phase2 (phase1 { nodes := [], edges := [] } notes).1
      (phase1 { nodes := [], edges := [] } notes).2.1 with
  | error e => rw [hp] at h; exact Except.noConfusion h
  | ok r2 =>
    rw [hp] at h
    dsimp only at h
    injection h with h'
    have hG : G = r2.1 := (congrArg Prod.fst h').symm
    have hnodes : r2.1.nodes = (phase1 { nodes := [], edges := [] } notes).1.nodes :=
      phase2_nodes _ _ _ hp
    have hedges0 : ((phase1 { nodes := [], edges := [] } notes).1).edges = [] :=
      phase1_edges notes _
    have hok : edgesOk (phase1 { nodes := [], edges := [] } notes).1 := by
      intro e he
      rw [hedges0] at he
      exact absurd he (List.not_mem_nil e)
    refine ⟨?_, ?_, ?_, ?_⟩
    · rw [hG]; exact phase2_edgesOk _ _ _ hp hok
    · rw [hG]; exact hnodes
    · intro n data hmem
      rw [hG, hnodes] at hmem
      rcases phase1_mem_nodes notes _ n data hmem with h0 | h0
      · exact absurd h0 (List.not_mem_nil _)
      · exact h0
    · intro g d s t hend hmiss
      unfold _add_edge_to_graph
      rw [hend]
      dsimp only [_get_node_name_from_link_val]
      rcases hmiss with hm | hm
      · simp [hm]
      · by_cases hsn : g.hasNode (_get_node_name_from_link s) = true
        · simp [hsn, hm]
        · have hsn' : g.hasNode (_get_node_name_from_link s) = false := by
            rw [← Bool.not_eq_true]; exact hsn
          simp [hsn']

/-- Witness for C1: a successful three-document build (two nodes, one edge)
satisfies the referential-integrity invariant. -/
theorem C1_witness :
    ∃ G L, build_graph [exDocA, exDocB, exDocAB] = .ok (G, L) ∧ edgesOk G := by
  refine ⟨_, _, rfl, ?_⟩
  exact (C1_edge_referential_integrity [exDocA, exDocB, exDocAB] _ _ rfl).1

/-- C6: a document whose metadata `type` is not `node`, `event` or `edge`
(including an absent `type`) contributes neither a node nor an edge — the
build of the same sequence without it returns the identical graph — and a
warning naming the unknown type and the document is emitted. -/
theorem C6_unknown_type_contributes_nothing (pre post : List ParsedNoteData)
    (d : ParsedNoteData)
    (h1 : isEntityType (typeOf d) = false) (h2 : isEdgeType (typeOf d) = false)
    (G : DiGraph) (L : List LogEntry)
    (h : build_graph (pre ++ d :: post) = .ok (G, L)) :
    LogEntry.warnUnknownType (typeOf d) d.note_name ∈ L
    ∧ ∃ L', build_graph (pre ++ post) = .ok (G, L') := by
  have h1' : ¬ isEntityType (typeOf d) = true := by rw [h1]; exact Bool.false_ne_true
  have h2' : ¬ isEdgeType (typeOf d) = true := by rw [h2]; exact Bool.false_ne_true
  have hstep : ∀ g : DiGraph, phase1 g (d :: post) =
      ((phase1 g post).1, (phase1 g post).2.1,
        LogEntry.warnUnknownType (typeOf d) d.note_name :: (phase1 g post).2.2) := by
    intro g
    simp only [phase1]
    rw [if_neg h1', if_neg h2']
  have key : phase1 { nodes := [], edges := [] } (pre ++ d :: post) =
      ((phase1 { nodes := [], edges := [] } (pre ++ post)).1,
       (phase1 { nodes := [], edges := [] } (pre ++ post)).2.1,
       (phase1 { nodes := [], edges := [] } pre).2.2 ++
         LogEntry.warnUnknownType (typeOf d) d.note_name ::
           (phase1 (phase1 { nodes := [], edges := [] } pre).1 post).2.2) := by
    rw [phase1_append pre (d :: post) { nodes := [], edges := [] },
      hstep, phase1_append pre post { nodes := [], edges := [] }]
  unfold build_graph at h ⊢
  dsimp only at h ⊢
  rw [key] at h
  dsimp only at h
  cases hp2 : phase2 (phase1 { nodes := [], edges := [] } (pre ++ post)).1
      (phase1 { nodes := [], edges := [] } (pre ++ post)).2.1 with
  | error e => rw [hp2] at h; exact Except.noConfusion h
  | ok r2 =>
    rw [hp2] at h
    dsimp only at h
    injection h with h'
    have hG : G = r2.1 := (congrArg Prod.fst h').symm
    have hL : L = ((phase1 { nodes := [], edges := [] } pre).2.2 ++
        LogEntry.warnUnknownType (typeOf d) d.note_name ::
          (phase1 (phase1 { nodes := [], edges := [] } pre).1 post).2.2) ++ r2.2 :=
      (congrArg Prod.snd h').symm
    constructor
    · rw [hL]; simp
    · refine ⟨((phase1 { nodes := [], edges := [] } pre).2.2 ++
        (phase1 (phase1 { nodes := [], edges := [] } pre).1 post).2.2) ++ r2.2, ?_⟩
      dsimp only
      rw [hG, phase1_append pre post { nodes := [], edges := [] }]

/-- Witness for C6: the single unknown-type document `exDocBadType`
contributes nothing: building `[exDocBadType]` equals building `[]` and
logs the warning. -/
theorem C6_witness :
    ∃ G L, build_graph ([] ++ exDocBadType :: []) = .ok (G, L)
      ∧ (LogEntry.warnUnknownType (typeOf exDocBadType) exDocBadType.note_name ∈ L
        ∧ ∃ L', build_graph ([] ++ []) = .ok (G, L')) := by
  refine ⟨_, _, rfl, ?_⟩
  exact C6_unknown_type_contributes_nothing [] [] exDocBadType rfl rfl _ _ rfl

/-- C8: duplicate derived names: when a sequence contains two `node`/`event`
documents with the same derived name, the later insertion silently
overwrites the earlier node's attributes under that key, and the resulting
graph has exactly one vertex with that key, carrying the later document's
attributes. -/
theorem C8_duplicate_name_last_wins
    (pre1 pre2 post : List ParsedNoteData) (d1 d2 : ParsedNoteData)
    (hd1 : isEntityType (typeOf d1) = true)
    (hd2 : isEntityType (typeOf d2) = true)
    (hname : d1.note_name = d2.note_name)
    (hpost : ∀ d ∈ post, isEntityType (typeOf d) = true → d.note_name ≠ d2.note_name)
    (G : DiGraph) (L : List LogEntry)
    (h : build_graph (pre1 ++ d1 :: (pre2 ++ d2 :: post)) = .ok (G, L)) :
    G.nodeData d2.note_name = some (NodeData.entity (mkNodeAttrs d2))
    ∧ (G.nodes.filter (fun p => p.1 == d2.note_name)).length = 1 := by
  have hstepd : ∀ (dd : ParsedNoteData) (g : DiGraph) (rest : List ParsedNoteData),
      isEntityType (typeOf dd) = true →
      (phase1 g (dd :: rest)).1
        = (phase1 (g.addNode dd.note_name (mkNodeAttrs dd)) rest).1 := by
    intro dd g rest hdd
    simp only [phase1, _add_node_to_graph]
    rw [if_pos hdd]
  have hchain : (phase1 { nodes := [], edges := [] } (pre1 ++ d1 :: (pre2 ++ d2 :: post))).1
      = (phase1
          ((phase1 ((phase1 { nodes := [], edges := [] } pre1).1.addNode
              d1.note_name (mkNodeAttrs d1)) pre2).1.addNode
            d2.note_name (mkNodeAttrs d2)) post).1 := by
    rw [phase1_append pre1 (d1 :: (pre2 ++ d2 :: post)) { nodes := [], edges := [] }]
    dsimp only
    rw [hstepd d1 _ _ hd1]
    rw [phase1_append pre2 (d2 :: post) _]
    dsimp only
    rw [hstepd d2 _ _ hd2]
  unfold build_graph at h
  dsimp only at h
  cases hp : phase2
      (phase1 { nodes := [], edges := [] } (pre1 ++ d1 :: (pre2 ++ d2 :: post))).1
      (phase1 { nodes := [], edges := [] } (pre1 ++ d1 :: (pre2 ++ d2 :: post))).2.1 with
  | error e => rw [hp] at h; exact Except.noConfusion h
  | ok r2 =>
    rw [hp] at h
    dsimp only at h
    injection h with h'
    have hG : G = r2.1 := (congrArg Prod.fst h').symm
    have hnodes : r2.1.nodes
        = (phase1 { nodes := [], edges := [] }
            (pre1 ++ d1 :: (pre2 ++ d2 :: post))).1.nodes :=
      phase2_nodes _ _ _ hp
    have hlook : G.nodeData d2.note_name = some (NodeData.entity (mkNodeAttrs d2)) := by
      unfold DiGraph.nodeData
      rw [hG, hnodes, hchain]
      have hpres := phase1_nodeData_preserve post d2.note_name
        ((phase1 ((phase1 { nodes := [], edges := [] } pre1).1.addNode
            d1.note_name (mkNodeAttrs d1)) pre2).1.addNode
          d2.note_name (mkNodeAttrs d2)) hpost
      unfold DiGraph.nodeData at hpres
      rw [hpres]
      have hself := addNode_nodeData_self
        (phase1 ((phase1 { nodes := [], edges := [] } pre1).1.addNode
            d1.note_name (mkNodeAttrs d1)) pre2).1 d2.note_name (mkNodeAttrs d2)
      unfold DiGraph.nodeData at hself
      exact hself
    have hbase : nodeKeysNodup { nodes := [], edges := [] } := by
      unfold nodeKeysNodup
      simp
    have hND0 : nodeKeysNodup
        (phase1 ((phase1 ((phase1 { nodes := [], edges := [] } pre1).1.addNode
            d1.note_name (mkNodeAttrs d1)) pre2).1.addNode
          d2.note_name (mkNodeAttrs d2)) post).1 :=
      phase1_keysNodup post _
        (addNode_keysNodup _ _ _
          (phase1_keysNodup pre2 _
            (addNode_keysNodup _ _ _
              (phase1_keysNodup pre1 _ hbase))))
    have hND : nodeKeysNodup G := by
      unfold nodeKeysNodup
      rw [hG, hnodes, hchain]
      exact hND0
    exact ⟨hlook,
      filter_key_length_one G.nodes d2.note_name
        (NodeData.entity (mkNodeAttrs d2)) hND hlook⟩

/-- Witness for C8: two documents both deriving the name `A` — `exDocA`
(`type: node`) then `exDocA2` (`type: event`) — leave exactly one vertex
`A`, carrying `exDocA2`'s attributes. -/
theorem C8_witness :
    ∃ G L, build_graph ([] ++ exDocA :: ([] ++ exDocA2 :: [])) = .ok (G, L)
      ∧ (G.nodeData exDocA2.note_name = some (NodeData.entity (mkNodeAttrs exDocA2))
        ∧ (G.nodes.filter (fun p => p.1 == exDocA2.note_name)).length = 1) := by
  refine ⟨_, _, rfl, ?_⟩
  exact C8_duplicate_name_last_wins [] [] [] exDocA exDocA2 rfl rfl rfl
    (fun d hd => absurd hd (List.not_mem_nil d)) _ _ rfl
